import Mathlib

/-!
Verification of the telecom ETL pipeline
(src/intern_assessment/python_etl/telecom_etl.py).

The four transform stages are shallowly embedded: file contents are given
as lists of rows (for CSV data) or lists of lines (for plain-text data),
Python floats are modelled as exact rationals, and code that can raise an
exception mid-stage is modelled as an Option-valued function (none means
the stage aborts and writes nothing).
-/

/-- Python membership test x not in two-element tuple of empty and NULL,
used by every default-substitution line of clean_customer_data. -/
def isNullLike (s : String) : Bool :=
  s == "" || s == "NULL"

/-- One default-substitution step: the value if it is neither empty nor
NULL, otherwise the fixed sentinel default. -/
def sentinel (v dflt : String) : String :=
  if isNullLike v then dflt else v

/-- Character classification of the Python str.isdigit predicate.
Python classifies by Unicode tables; this model covers the ASCII digits
and the main non-ASCII decimal-digit (Nd) ranges that occur in the
analysis: Arabic-Indic, Extended Arabic-Indic, Devanagari and fullwidth
digits.  Characters outside these ranges are out of the modelled input
space. -/
def pyIsDigitChar (c : Char) : Bool :=
  (0x30 ≤ c.toNat && c.toNat ≤ 0x39) ||
  (0x660 ≤ c.toNat && c.toNat ≤ 0x669) ||
  (0x6F0 ≤ c.toNat && c.toNat ≤ 0x6F9) ||
  (0x966 ≤ c.toNat && c.toNat ≤ 0x96F) ||
  (0xFF10 ≤ c.toNat && c.toNat ≤ 0xFF19)

/-- Python str.isdigit: nonempty and every character is a digit. -/
def pyIsDigit (s : String) : Bool :=
  !s.data.isEmpty && s.data.all pyIsDigitChar

/-- Numeric value of a digit character, by offset inside its range
(the value Python uses when converting digit strings to numbers). -/
def pyDigitVal (c : Char) : ℕ :=
  if 0x30 ≤ c.toNat && c.toNat ≤ 0x39 then c.toNat - 0x30
  else if 0x660 ≤ c.toNat && c.toNat ≤ 0x669 then c.toNat - 0x660
  else if 0x6F0 ≤ c.toNat && c.toNat ≤ 0x6F9 then c.toNat - 0x6F0
  else if 0x966 ≤ c.toNat && c.toNat ≤ 0x96F then c.toNat - 0x966
  else if 0xFF10 ≤ c.toNat && c.toNat ≤ 0xFF19 then c.toNat - 0xFF10
  else 0

/-- Date formatting step of clean_customer_data: an eight-character
all-digit registration date is rewritten as the slices 0:4, 4:6, 6:8
joined by hyphens; every other value passes through unchanged. -/
def normalizeDate (reg : String) : String :=
  if reg.length == 8 && pyIsDigit reg then
    String.mk (reg.data.take 4) ++ "-" ++ String.mk ((reg.data.drop 4).take 2)
      ++ "-" ++ String.mk (reg.data.drop 6)
  else reg

/-- The header row written to customer_data_cleaned.csv. -/
def outputHeader : List String :=
  ["customer_id", "name", "phone", "email", "registration_date", "status",
   "credit_limit"]

/-- The per-row loop of clean_customer_data on the data rows (everything
after the header row).  A row is unpacked into exactly seven fields
(Python raises ValueError otherwise, aborting the stage: modelled by
none), sentinel defaults are substituted, the post-substitution phone is
validated, failing rows are appended to the rejected list in original
form, passing rows get the date formatting and are appended to the
cleaned list. -/
def cleanRows : List (List String) → Option (List (List String) × List (List String))
  | [] => some ([], [])
  | row :: rest =>
    match row with
    | [cid0, name0, phone0, email0, reg0, status0, credit0] =>
      let cid := sentinel cid0 "UNKNOWN"
      let name := sentinel name0 "UNKNOWN_CUSTOMER"
      let phone := sentinel phone0 "0000000000"
      let email := sentinel email0 "noemail@unknown.com"
      let reg := sentinel reg0 "1900-01-01"
      let stat := sentinel status0 "INACTIVE"
      let credit := sentinel credit0 "0"
      if pyIsDigit phone && phone.length == 10 then
        match cleanRows rest with
        | some (cs, rs) =>
          some ([cid, name, phone, email, normalizeDate reg, stat, credit] :: cs, rs)
        | none => none
      else
        match cleanRows rest with
        | some (cs, rs) => some (cs, row :: rs)
        | none => none
    | _ => none

/-- Result of the Customer Cleanser stage: the data rows written to the
cleaned file, the data rows written to the reject file, and whether the
reject file is written at all (only when some row was rejected). -/
structure CleanResult where
  cleaned : List (List String)
  rejected : List (List String)
  rejectFileWritten : Bool
deriving DecidableEq, Repr

/-- clean_customer_data on the rows of customer_data.csv.  The first row
is the header (indexing rows[0] aborts on an empty file), the remainder
is cleaned row by row; the reject file is written only when the rejected
list is nonempty. -/
def clean_customer_data (rows : List (List String)) : Option CleanResult :=
  match rows with
  | [] => none
  | _header :: data =>
    match cleanRows data with
    | some (cs, rs) => some ⟨cs, rs, !rs.isEmpty⟩
    | none => none

/-- The phone-validation test of clean_customer_data, as a predicate of
the original row: substitute the phone default, then require ten
characters, all digits. -/
def passes (row : List String) : Bool :=
  match row with
  | [_, _, phone0, _, _, _, _] =>
    let phone := sentinel phone0 "0000000000"
    pyIsDigit phone && phone.length == 10
  | _ => false

/-- The cleaned row derived from one input row: some transformed row when
the row passes phone validation, none when it is rejected. -/
def cleanRowOut (row : List String) : Option (List String) :=
  match row with
  | [cid0, name0, phone0, email0, reg0, status0, credit0] =>
    let phone := sentinel phone0 "0000000000"
    if pyIsDigit phone && phone.length == 10 then
      some [sentinel cid0 "UNKNOWN", sentinel name0 "UNKNOWN_CUSTOMER", phone,
            sentinel email0 "noemail@unknown.com",
            normalizeDate (sentinel reg0 "1900-01-01"),
            sentinel status0 "INACTIVE", sentinel credit0 "0"]
    else none
  | _ => none

/-! ### Usage Deduplicator -/

/-- The deduplication loop of deduplicate_usage_data, with the seen set
and the output list as explicit accumulators: a line is appended to the
output only the first time it is seen. -/
def pyDedupLoop {α : Type} [DecidableEq α] (seen out : List α) : List α → List α
  | [] => out
  | x :: xs =>
    if x ∈ seen then pyDedupLoop seen out xs
    else pyDedupLoop (x :: seen) (out ++ [x]) xs

/-- Structural form of the deduplication loop (the emitted sequence,
given the set of already-seen lines). -/
def pyDedupAux {α : Type} [DecidableEq α] (seen : List α) : List α → List α
  | [] => []
  | x :: xs =>
    if x ∈ seen then pyDedupAux seen xs
    else x :: pyDedupAux (x :: seen) xs

/-- Deduplication from an empty seen set. -/
def pyDedup {α : Type} [DecidableEq α] (l : List α) : List α :=
  pyDedupAux [] l

/-- Counters reported by deduplicate_usage_data together with the lines
written to usage_data_deduped.txt. -/
structure DedupResult where
  deduped : List String
  inputCount : ℕ
  outputCount : ℕ
  duplicatesRemoved : ℕ
deriving DecidableEq, Repr

/-- deduplicate_usage_data on the raw lines of usage_data.txt (trailing
newlines are part of each line; there is no header handling). -/
def deduplicate_usage_data (lines : List String) : DedupResult :=
  let out := pyDedupLoop [] [] lines
  ⟨out, lines.length, out.length, lines.length - out.length⟩

/-- Independent rendering of first-occurrence deduplication: keep the
head and deduplicate the tail with all copies of the head removed. -/
def dedupSpec {α : Type} [DecidableEq α] : List α → List α
  | [] => []
  | x :: xs => x :: dedupSpec (xs.filter (fun y => y ≠ x))
termination_by l => l.length
decreasing_by
  simp only [List.length_cons]
  exact Nat.lt_succ_of_le (List.length_filter_le _ _)

/-! ### Billing Aggregator -/

/-- Lexicographic comparison of character lists by code point, the
ordering Python uses for its string less-than. -/
def lexLt : List Char → List Char → Bool
  | [], [] => false
  | [], _ :: _ => true
  | _ :: _, [] => false
  | a :: as, b :: bs =>
    if a.toNat < b.toNat then true
    else if b.toNat < a.toNat then false
    else lexLt as bs

/-- Python string less-than (used by the last-billing-date update). -/
def pyStrLt (s t : String) : Bool :=
  lexLt s.data t.data

/-- Python str.split with a one-character separator: every occurrence of
the separator starts a new field; the empty string yields one empty
field. -/
def splitOnChar (sep : Char) : List Char → List (List Char)
  | [] => [[]]
  | c :: cs =>
    let r := splitOnChar sep cs
    if c = sep then [] :: r
    else
      match r with
      | [] => [[c]]
      | g :: gs => (c :: g) :: gs

/-- Python whitespace test for str.strip (ASCII whitespace; exotic
Unicode space characters are outside the modelled input space). -/
def isPySpace (c : Char) : Bool :=
  c = ' ' || c = '\t' || c = '\n' || c = '\x0d' || c = '\x0b' || c = '\x0c'

/-- Python str.strip: remove leading and trailing whitespace. -/
def pyStripList (l : List Char) : List Char :=
  ((l.dropWhile isPySpace).reverse.dropWhile isPySpace).reverse

/-- ASCII digit test. -/
def isAsciiDigit (c : Char) : Bool :=
  0x30 ≤ c.toNat && c.toNat ≤ 0x39

/-- Value of a list of ASCII digits read in base ten. -/
def digitsVal (l : List Char) : ℕ :=
  l.foldl (fun n c => 10 * n + (c.toNat - 0x30)) 0

/-- Body of a Python float literal after sign removal: digits with an
optional single point, at least one digit overall.  The exact value is
returned as a rational. -/
def floatBody (l : List Char) : Option ℚ :=
  if l.contains '.' then
    let ip := l.takeWhile (fun c => c ≠ '.')
    let fp := (l.dropWhile (fun c => c ≠ '.')).drop 1
    if ip.all isAsciiDigit && fp.all isAsciiDigit && !fp.contains '.' &&
        (!ip.isEmpty || !fp.isEmpty) then
      some ((digitsVal ip : ℚ) + (digitsVal fp : ℚ) / (10 : ℚ) ^ fp.length)
    else none
  else
    if l.all isAsciiDigit && !l.isEmpty then some (digitsVal l : ℚ) else none

/-- Model of the Python float builtin, restricted to plain decimal
literals with an optional sign and surrounding whitespace; exponent,
infinity, nan, underscore and non-ASCII digit forms are outside the
modelled input space.  Returns none where float raises ValueError,
which aborts the aggregation stage. -/
def pyFloat (s : String) : Option ℚ :=
  match pyStripList s.data with
  | '+' :: r => floatBody r
  | '-' :: r => (floatBody r).map Neg.neg
  | r => floatBody r

/-- The amount of one billing row: 0.0 for an empty or NULL field,
otherwise the float value of the field. -/
def parseAmount (s : String) : Option ℚ :=
  if isNullLike s then some 0 else pyFloat s

/-- The per-customer running state of aggregate_billing_data.  The five
Python dictionaries (totals, counts, mins, maxs, last_dates) always
receive a key together, on the first row of that customer, so they are
fused into one insertion-ordered association list. -/
structure BillStats where
  total : ℚ
  count : ℕ
  amtMin : ℚ
  amtMax : ℚ
  lastDate : String
deriving DecidableEq, Repr

/-- One row's worth of dictionary updates for its customer: first row
initialises all five statistics, later rows add to the total, bump the
count, and keep min, max and the lexicographically larger date. -/
def statUpd : Option BillStats → ℚ → String → BillStats
  | none, amt, d => ⟨amt, 1, amt, amt, d⟩
  | some s, amt, d =>
    ⟨s.total + amt, s.count + 1,
     if amt < s.amtMin then amt else s.amtMin,
     if s.amtMax < amt then amt else s.amtMax,
     if pyStrLt s.lastDate d then d else s.lastDate⟩

/-- Apply one row's update inside the insertion-ordered association
list: an existing customer is updated in place, a new customer is
appended at the end (Python dictionaries preserve insertion order). -/
def updateAssoc : List (String × BillStats) → String → ℚ → String → List (String × BillStats)
  | [], cid, amt, d => [(cid, statUpd none amt d)]
  | (k, s) :: rest, cid, amt, d =>
    if k = cid then (k, statUpd (some s) amt d) :: rest
    else (k, s) :: updateAssoc rest cid amt d

/-- First-match lookup in the association list. -/
def findStats (k : String) : List (String × BillStats) → Option BillStats
  | [] => none
  | (k2, s) :: rest => if k2 = k then some s else findStats k rest

/-- Split one billing line into its pipe-delimited fields, as the
aggregator does: strip the line, then split on the pipe character. -/
def billParseLine (line : String) : List String :=
  (splitOnChar '|' (pyStripList line.data)).map String.mk

/-- Process one parsed billing row: rows need a customer id, an amount
and a date (fewer than three fields raises IndexError, aborting the
stage), and a non-null amount must parse as a float. -/
def billStep (acc : List (String × BillStats)) (row : List String) :
    Option (List (String × BillStats)) :=
  match row with
  | cid :: amt0 :: d :: _ =>
    match parseAmount amt0 with
    | some amt => some (updateAssoc acc cid amt d)
    | none => none
  | _ => none

/-- The aggregation loop over all parsed billing rows. -/
def billFold (acc : List (String × BillStats)) :
    List (List String) → Option (List (String × BillStats))
  | [] => some acc
  | row :: rest =>
    match billStep acc row with
    | some acc2 => billFold acc2 rest
    | none => none

/-- One output line of billing_aggregated.txt. -/
structure BillingSummary where
  customer_id : String
  total_amount : ℚ
  avg_amount : ℚ
  record_count : ℕ
  min_amount : ℚ
  max_amount : ℚ
  last_billing_date : String
deriving DecidableEq, Repr

/-- The summary emitted for one customer: the average is total over
count, guarded against a zero count as in the source. -/
def mkSummary (cid : String) (s : BillStats) : BillingSummary :=
  ⟨cid, s.total, if s.count > 0 then s.total / (s.count : ℚ) else 0,
   s.count, s.amtMin, s.amtMax, s.lastDate⟩

/-- The output loop of aggregate_billing_data: one summary line per
customer, in dictionary (first-appearance) order. -/
def emitSummaries (acc : List (String × BillStats)) : List BillingSummary :=
  acc.map fun p => mkSummary p.1 p.2

/-- aggregate_billing_data on the raw lines of billing_records.txt: the
first line is the header (indexing lines[0] aborts on an empty file),
the remaining lines are stripped, split on pipes and folded into the
per-customer dictionaries, which are then emitted in insertion order. -/
def aggregate_billing_data (lines : List String) : Option (List BillingSummary) :=
  match lines with
  | [] => none
  | _header :: dataLines =>
    (billFold [] (dataLines.map billParseLine)).map emitSummaries

/-- The amount-and-date pairs of one customer, in input order: the
claim-side description of the rows the aggregator folds for that
customer. -/
def pairsOf (k : String) (rows : List (List String)) : List (ℚ × String) :=
  rows.filterMap fun r =>
    match r with
    | c :: a :: d :: _ =>
      if c = k then (parseAmount a).map (fun q => (q, d)) else none
    | _ => none

/-- The amounts of one customer, in input order. -/
def amountsOf (k : String) (rows : List (List String)) : List ℚ :=
  (pairsOf k rows).map Prod.fst

/-- The billing dates of one customer, in input order. -/
def datesOf (k : String) (rows : List (List String)) : List String :=
  (pairsOf k rows).map Prod.snd

/-- Correctness of one customer state against that customer's
amount-and-date pairs: the total is the sum of the amounts, the count is
their number, min and max bound every amount, and the stored date is a
lexicographically maximal member of the dates. -/
def GoodStats (s : BillStats) (ps : List (ℚ × String)) : Prop :=
  s.total = (ps.map Prod.fst).sum ∧
  s.count = ps.length ∧
  (∀ a ∈ ps.map Prod.fst, s.amtMin ≤ a ∧ a ≤ s.amtMax) ∧
  s.lastDate ∈ ps.map Prod.snd ∧
  (∀ d ∈ ps.map Prod.snd, pyStrLt s.lastDate d = false)

/-! ### Report Composer -/

/-- Rendering of a rational in the report text.  The source prints
Python floats; the textual rendering of numbers is abstracted as exact
rational text since no verified property inspects it. -/
def showQ (q : ℚ) : String :=
  toString q.num ++ "/" ++ toString q.den

/-- Rendering of a possibly negative count in the report text. -/
def showZ (z : ℤ) : String :=
  toString z

/-- The active-customer count of the report: one pass over the cleaned
customer rows, reading field index 5 of each (a shorter row raises
IndexError, aborting the stage). -/
def activeCount : List (List String) → Option ℕ
  | [] => some 0
  | row :: rest =>
    match row.get? 5 with
    | some st => (activeCount rest).map fun n => (if st = "ACTIVE" then 1 else 0) + n
    | none => none

/-- Python str.replace with empty replacement and count one: remove the
first occurrence of the character, if any. -/
def removeFirst (c : Char) (l : List Char) : List Char :=
  l.takeWhile (fun x => x ≠ c) ++ (l.dropWhile (fun x => x ≠ c)).drop 1

/-- Value of a digit string with at most one point, as read by float on
a string that passed the report's digit guard. -/
def guardedFloat (l : List Char) : ℚ :=
  let ip := l.takeWhile (fun x => x ≠ '.')
  let fp := (l.dropWhile (fun x => x ≠ '.')).drop 1
  (ip.foldl (fun n c => 10 * n + pyDigitVal c) 0 : ℚ) +
    (fp.foldl (fun n c => 10 * n + pyDigitVal c) 0 : ℚ) / (10 : ℚ) ^ fp.length

/-- The usage-statistics loop of create_final_report.  The three writes
of the usage section sit inside the loop body in the source, so they
are emitted once per data line, after that line's amount (third
pipe-delimited field, when its point-stripped form is all digits) has
been added to the running total. -/
def usageLoop (records : ℕ) (acc : ℚ) : List String → List String
  | [] => []
  | line :: rest =>
    let parts := (splitOnChar '|' line.data).map String.mk
    let acc2 :=
      if 3 ≤ parts.length &&
          pyIsDigit (String.mk (removeFirst '.' (parts.getD 2 "").data)) then
        acc + guardedFloat (parts.getD 2 "").data
      else acc
    ["USAGE DATA STATISTICS:\n",
     "  - Total usage records: " ++ toString records ++ "\n",
     "  - Total data usage (MB): " ++ showQ acc2 ++ "\n\n"] ++
      usageLoop records acc2 rest

/-- The total-revenue sum of the report: field index 1 of each billing
summary line after the header, parsed as a float (a missing field or a
failed parse aborts the stage). -/
def revenueSum : List String → Option ℚ
  | [] => some 0
  | line :: rest =>
    match ((splitOnChar '|' line.data).map String.mk).get? 1 with
    | some f =>
      match pyFloat f with
      | some v => (revenueSum rest).map fun r => v + r
      | none => none
    | none => none

/-- create_final_report as the sequence of strings written to the report
file, given the rows of the cleaned customer file, the lines of the
deduplicated usage file and the lines of the aggregated billing file.
The two timestamps are taken as parameters.  none models an exception
while composing (which leaves a partial file and fails the stage). -/
def create_final_report (now1 now2 : String) (customerRows : List (List String))
    (usageLines : List String) (billingLines : List String) :
    Option (List String) :=
  match activeCount (customerRows.drop 1) with
  | none => none
  | some active =>
    match revenueSum (billingLines.drop 1) with
    | none => none
    | some rev =>
      let dataLines := (usageLines.map fun s => String.mk (pyStripList s.data)).drop 1
      some (["=== TELECOM DAILY ETL REPORT - " ++ now1 ++ " ===\n\n",
             "CUSTOMER DATA STATISTICS:\n",
             "  - Total customers processed: " ++
               showZ ((customerRows.length : ℤ) - 1) ++ "\n",
             "  - Active customers: " ++ toString active ++ "\n\n"] ++
            usageLoop dataLines.length 0 dataLines ++
            ["BILLING DATA STATISTICS:\n",
             "  - Customers with billing: " ++
               showZ ((billingLines.length : ℤ) - 1) ++ "\n",
             "  - Total revenue: " ++ showQ rev ++ "\n\n",
             "PROCESSING SUMMARY:\n",
             "  - Script: telecom_etl_pipeline (Python version)\n",
             "  - Status: SUCCESS\n",
             "  - Report generated at: " ++ now2 ++ "\n"])

theorem pyDedupLoop_eq_append {α : Type} [DecidableEq α] (l : List α) :
    ∀ seen out, pyDedupLoop seen out l = out ++ pyDedupAux seen l := by
  induction l with
  | nil => intro seen out; simp [pyDedupLoop, pyDedupAux]
  | cons x xs ih =>
    intro seen out
    by_cases hx : x ∈ seen
    · simp [pyDedupLoop, pyDedupAux, hx, ih]
    · simp [pyDedupLoop, pyDedupAux, hx, ih]

theorem pyDedupAux_sublist {α : Type} [DecidableEq α] (l : List α) :
    ∀ seen, (pyDedupAux seen l).Sublist l := by
  induction l with
  | nil => intro seen; simp [pyDedupAux]
  | cons x xs ih =>
    intro seen
    by_cases hx : x ∈ seen
    · simpa [pyDedupAux, hx] using (ih seen).cons x
    · simpa [pyDedupAux, hx] using (ih (x :: seen)).cons₂ x

theorem mem_pyDedupAux {α : Type} [DecidableEq α] (l : List α) :
    ∀ seen x, x ∈ pyDedupAux seen l ↔ x ∈ l ∧ x ∉ seen := by
  induction l with
  | nil => intro seen x; simp [pyDedupAux]
  | cons y ys ih =>
    intro seen x
    by_cases hy : y ∈ seen
    · simp only [pyDedupAux, if_pos hy, ih, List.mem_cons]
      constructor
      · rintro ⟨h1, h2⟩; exact ⟨Or.inr h1, h2⟩
      · rintro ⟨h1 | h1, h2⟩
        · exact absurd (h1 ▸ hy) h2
        · exact ⟨h1, h2⟩
    · simp only [pyDedupAux, if_neg hy, List.mem_cons, ih]
      constructor
      · rintro (rfl | ⟨h1, h2⟩)
        · exact ⟨Or.inl rfl, hy⟩
        · exact ⟨Or.inr h1, fun hc => h2 (Or.inr hc)⟩
      · rintro ⟨rfl | h1, h2⟩
        · exact Or.inl rfl
        · by_cases hxy : x = y
          · exact Or.inl hxy
          · exact Or.inr ⟨h1, by simp [hxy, h2]⟩

theorem pyDedupAux_nodup {α : Type} [DecidableEq α] (l : List α) :
    ∀ seen, (pyDedupAux seen l).Nodup := by
  induction l with
  | nil => intro seen; simp [pyDedupAux]
  | cons x xs ih =>
    intro seen
    by_cases hx : x ∈ seen
    · simpa [pyDedupAux, hx] using ih seen
    · simp only [pyDedupAux, if_neg hx, List.nodup_cons]
      refine ⟨fun hc => ?_, ih (x :: seen)⟩
      exact ((mem_pyDedupAux xs (x :: seen) x).mp hc).2 (List.mem_cons_self x seen)

theorem pyDedupAux_congr_seen {α : Type} [DecidableEq α] (l : List α) :
    ∀ s t, (∀ x, x ∈ s ↔ x ∈ t) → pyDedupAux s l = pyDedupAux t l := by
  induction l with
  | nil => intro s t _; simp [pyDedupAux]
  | cons x xs ih =>
    intro s t hst
    by_cases hx : x ∈ s
    · rw [pyDedupAux, pyDedupAux, if_pos hx, if_pos ((hst x).mp hx), ih s t hst]
    · rw [pyDedupAux, pyDedupAux, if_neg hx, if_neg (fun hc => hx ((hst x).mpr hc))]
      refine congrArg (x :: ·) (ih _ _ ?_)
      intro y; simp [hst y]

theorem pyDedupAux_eq_dedupSpec {α : Type} [DecidableEq α] (l : List α) :
    ∀ seen, pyDedupAux seen l = dedupSpec (l.filter (fun y => y ∉ seen)) := by
  induction l with
  | nil => intro seen; simp [pyDedupAux, dedupSpec]
  | cons x xs ih =>
    intro seen
    by_cases hx : x ∈ seen
    · simp only [pyDedupAux, if_pos hx, List.filter_cons,
        decide_eq_true_eq]
      rw [if_neg (by simp [hx])]
      exact ih seen
    · simp only [pyDedupAux, if_neg hx, List.filter_cons]
      rw [if_pos (by simp [hx])]
      rw [dedupSpec, ih (x :: seen), List.filter_filter]
      refine congrArg (x :: ·) (congrArg dedupSpec (List.filter_congr ?_))
      intro y _
      by_cases hxy : y = x <;> simp [hxy, hx]

/-! ### Lemmas about the Customer Cleanser -/

theorem exists_seven_of_length {row : List String} (h : row.length = 7) :
    ∃ a b c d e f g, row = [a, b, c, d, e, f, g] := by
  rcases row with _ | ⟨a, _ | ⟨b, _ | ⟨c, _ | ⟨d, _ | ⟨e, _ | ⟨f, _ | ⟨g, _ | ⟨x, t⟩⟩⟩⟩⟩⟩⟩⟩
  all_goals simp only [List.length_cons, List.length_nil] at h
  all_goals first
    | omega
    | exact ⟨a, b, c, d, e, f, g, rfl⟩

theorem cleanRows_shape {row : List String} {rest : List (List String)}
    {p : List (List String) × List (List String)}
    (h : cleanRows (row :: rest) = some p) :
    ∃ a b c d e f g, row = [a, b, c, d, e, f, g] := by
  rcases row with _ | ⟨a, _ | ⟨b, _ | ⟨c, _ | ⟨d, _ | ⟨e, _ | ⟨f, _ | ⟨g, _ | ⟨x, t⟩⟩⟩⟩⟩⟩⟩⟩
  all_goals first
    | exact ⟨a, b, c, d, e, f, g, rfl⟩
    | simp [cleanRows] at h

theorem cleanRows_char : ∀ (data : List (List String))
    (cs rs : List (List String)), cleanRows data = some (cs, rs) →
    cs = data.filterMap cleanRowOut ∧ rs = data.filter (fun r => !(passes r)) := by
  intro data
  induction data with
  | nil =>
    intro cs rs h
    simp [cleanRows] at h
    simp [h.1, h.2]
  | cons row rest ih =>
    intro cs rs h
    obtain ⟨a, b, c, d, e, f, g, rfl⟩ := cleanRows_shape h
    simp only [cleanRows] at h
    by_cases hc : (pyIsDigit (sentinel c "0000000000") &&
        (sentinel c "0000000000").length == 10) = true
    · rw [if_pos hc] at h
      cases hrest : cleanRows rest with
      | none => rw [hrest] at h; exact absurd h (by simp)
      | some p =>
        obtain ⟨cs2, rs2⟩ := p
        rw [hrest] at h
        obtain ⟨h1, h2⟩ : _ ∧ _ := by
          constructor <;> [exact congrArg Prod.fst (Option.some.inj h);
            exact congrArg Prod.snd (Option.some.inj h)]
        obtain ⟨ih1, ih2⟩ := ih cs2 rs2 hrest
        subst h1; subst h2
        constructor
        · simp [List.filterMap_cons, cleanRowOut, hc, ih1]
        · have hp : passes [a, b, c, d, e, f, g] = true := by
            simpa [passes] using hc
          simp [List.filter_cons, hp, ih2]
    · rw [if_neg hc] at h
      cases hrest : cleanRows rest with
      | none => rw [hrest] at h; exact absurd h (by simp)
      | some p =>
        obtain ⟨cs2, rs2⟩ := p
        rw [hrest] at h
        obtain ⟨h1, h2⟩ : _ ∧ _ := by
          constructor <;> [exact congrArg Prod.fst (Option.some.inj h);
            exact congrArg Prod.snd (Option.some.inj h)]
        obtain ⟨ih1, ih2⟩ := ih cs2 rs2 hrest
        subst h1; subst h2
        constructor
        · simp [List.filterMap_cons, cleanRowOut, hc, ih1]
        · have hp : passes [a, b, c, d, e, f, g] = false := by
            simp only [passes]
            exact Bool.not_eq_true _ ▸ (by simpa using hc)
          simp [List.filter_cons, hp, ih2]

theorem cleanRows_count : ∀ (data cs rs : List (List String)),
    cleanRows data = some (cs, rs) → cs.length + rs.length = data.length := by
  intro data
  induction data with
  | nil => intro cs rs h; simp [cleanRows] at h; simp [h.1, h.2]
  | cons row rest ih =>
    intro cs rs h
    obtain ⟨a, b, c, d, e, f, g, rfl⟩ := cleanRows_shape h
    simp only [cleanRows] at h
    by_cases hc : (pyIsDigit (sentinel c "0000000000") &&
        (sentinel c "0000000000").length == 10) = true
    · rw [if_pos hc] at h
      cases hrest : cleanRows rest with
      | none => rw [hrest] at h; exact absurd h (by simp)
      | some p =>
        obtain ⟨cs2, rs2⟩ := p
        rw [hrest] at h
        have h1 := congrArg Prod.fst (Option.some.inj h)
        have h2 := congrArg Prod.snd (Option.some.inj h)
        simp only at h1 h2
        subst h1; subst h2
        have := ih cs2 rs2 hrest
        simp only [List.length_cons]
        omega
    · rw [if_neg hc] at h
      cases hrest : cleanRows rest with
      | none => rw [hrest] at h; exact absurd h (by simp)
      | some p =>
        obtain ⟨cs2, rs2⟩ := p
        rw [hrest] at h
        have h1 := congrArg Prod.fst (Option.some.inj h)
        have h2 := congrArg Prod.snd (Option.some.inj h)
        simp only at h1 h2
        subst h1; subst h2
        have := ih cs2 rs2 hrest
        simp only [List.length_cons]
        omega

theorem cleanRows_total : ∀ (data : List (List String)),
    (∀ row ∈ data, row.length = 7) → ∃ p, cleanRows data = some p := by
  intro data
  induction data with
  | nil => intro _; exact ⟨([], []), rfl⟩
  | cons row rest ih =>
    intro h
    obtain ⟨a, b, c, d, e, f, g, rfl⟩ :=
      exists_seven_of_length (h row (List.mem_cons_self _ _))
    obtain ⟨⟨cs2, rs2⟩, hrest⟩ := ih (fun r hr => h r (List.mem_cons_of_mem _ hr))
    by_cases hc : (pyIsDigit (sentinel c "0000000000") &&
        (sentinel c "0000000000").length == 10) = true
    · exact ⟨_, by simp only [cleanRows]; rw [if_pos hc, hrest]⟩
    · exact ⟨_, by simp only [cleanRows]; rw [if_neg hc, hrest]⟩

theorem isNullLike_eq_false {s : String} (h1 : s ≠ "") (h2 : s ≠ "NULL") :
    isNullLike s = false := by
  simp [isNullLike, h1, h2]

theorem isNullLike_false_of_length10 {s : String} (h : s.length = 10) :
    isNullLike s = false := by
  apply isNullLike_eq_false
  · intro e; rw [e] at h; exact absurd h (by decide)
  · intro e; rw [e] at h; exact absurd h (by decide)

theorem sentinel_notNull {v d : String} (hd : isNullLike d = false) :
    isNullLike (sentinel v d) = false := by
  by_cases h : isNullLike v <;> simp [sentinel, h, hd]

theorem sentinel_id {v : String} (d : String) (hv : isNullLike v = false) :
    sentinel v d = v := by
  simp [sentinel, hv]

theorem normalizeDate_length {reg : String}
    (h : (reg.length == 8 && pyIsDigit reg) = true) :
    (normalizeDate reg).length = 10 := by
  have h8 : reg.length = 8 := by
    have := (Bool.and_eq_true _ _).mp h
    exact beq_iff_eq.mp this.1
  rw [normalizeDate, if_pos h]
  simp only [String.length_append]
  have hd : reg.data.length = 8 := h8
  simp only [String.length, String.mk, List.length_take, List.length_drop, hd]
  decide

theorem normalizeDate_idem (reg : String) :
    normalizeDate (normalizeDate reg) = normalizeDate reg := by
  by_cases h : (reg.length == 8 && pyIsDigit reg) = true
  · have hlen := normalizeDate_length h
    have hcond : ¬(((normalizeDate reg).length == 8 &&
        pyIsDigit (normalizeDate reg)) = true) := by
      rw [hlen]; simp
    rw [normalizeDate, if_neg hcond]
  · have e : normalizeDate reg = reg := by rw [normalizeDate, if_neg h]
    rw [e, e]

theorem isNullLike_normalizeDate {reg : String} (h : isNullLike reg = false) :
    isNullLike (normalizeDate reg) = false := by
  by_cases hc : (reg.length == 8 && pyIsDigit reg) = true
  · exact isNullLike_false_of_length10 (normalizeDate_length hc)
  · have e : normalizeDate reg = reg := by rw [normalizeDate, if_neg hc]
    rw [e]; exact h

theorem cleanRows_cons_pass (a b c d e f g : String)
    {rest cs rs : List (List String)}
    (hc : (pyIsDigit (sentinel c "0000000000") &&
      (sentinel c "0000000000").length == 10) = true)
    (hrest : cleanRows rest = some (cs, rs)) :
    cleanRows ([a, b, c, d, e, f, g] :: rest) =
      some ([sentinel a "UNKNOWN", sentinel b "UNKNOWN_CUSTOMER",
             sentinel c "0000000000", sentinel d "noemail@unknown.com",
             normalizeDate (sentinel e "1900-01-01"), sentinel f "INACTIVE",
             sentinel g "0"] :: cs, rs) := by
  simp only [cleanRows]
  rw [if_pos hc, hrest]

theorem cleanRows_cons_fail (a b c d e f g : String)
    {rest cs rs : List (List String)}
    (hc : ¬((pyIsDigit (sentinel c "0000000000") &&
      (sentinel c "0000000000").length == 10) = true))
    (hrest : cleanRows rest = some (cs, rs)) :
    cleanRows ([a, b, c, d, e, f, g] :: rest) =
      some (cs, [a, b, c, d, e, f, g] :: rs) := by
  simp only [cleanRows]
  rw [if_neg hc, hrest]

theorem cleanRows_append {xs ys c2 r2 : List (List String)}
    (h2 : cleanRows ys = some (c2, r2)) :
    ∀ c1 r1, cleanRows xs = some (c1, r1) →
      cleanRows (xs ++ ys) = some (c1 ++ c2, r1 ++ r2) := by
  induction xs with
  | nil =>
    intro c1 r1 h1
    simp only [cleanRows, Option.some.injEq, Prod.mk.injEq] at h1
    obtain ⟨rfl, rfl⟩ := h1
    simpa using h2
  | cons row rest ih =>
    intro c1 r1 h1
    obtain ⟨a, b, c, d, e, f, g, rfl⟩ := cleanRows_shape h1
    by_cases hc : (pyIsDigit (sentinel c "0000000000") &&
        (sentinel c "0000000000").length == 10) = true
    · cases hrest : cleanRows rest with
      | none =>
        rw [cleanRows, if_pos hc, hrest] at h1
        exact absurd h1 (by simp)
      | some p =>
        obtain ⟨cs2, rs2⟩ := p
        rw [cleanRows_cons_pass a b c d e f g hc hrest, Option.some.injEq,
          Prod.mk.injEq] at h1
        obtain ⟨rfl, rfl⟩ := h1
        rw [List.cons_append, List.cons_append]
        rw [cleanRows_cons_pass a b c d e f g hc (ih cs2 rs2 hrest)]
    · cases hrest : cleanRows rest with
      | none =>
        rw [cleanRows, if_neg hc, hrest] at h1
        exact absurd h1 (by simp)
      | some p =>
        obtain ⟨cs2, rs2⟩ := p
        rw [cleanRows_cons_fail a b c d e f g hc hrest, Option.some.injEq,
          Prod.mk.injEq] at h1
        obtain ⟨rfl, rfl⟩ := h1
        rw [List.cons_append, List.cons_append]
        rw [cleanRows_cons_fail a b c d e f g hc (ih cs2 rs2 hrest)]

theorem cleanRows_idem : ∀ (data cs rs : List (List String)),
    cleanRows data = some (cs, rs) → cleanRows cs = some (cs, []) := by
  intro data
  induction data with
  | nil =>
    intro cs rs h
    simp only [cleanRows, Option.some.injEq, Prod.mk.injEq] at h
    obtain ⟨rfl, rfl⟩ := h
    rfl
  | cons row rest ih =>
    intro cs rs h
    obtain ⟨a, b, c, d, e, f, g, rfl⟩ := cleanRows_shape h
    by_cases hc : (pyIsDigit (sentinel c "0000000000") &&
        (sentinel c "0000000000").length == 10) = true
    · cases hrest : cleanRows rest with
      | none =>
        rw [cleanRows, if_pos hc, hrest] at h
        exact absurd h (by simp)
      | some p =>
        obtain ⟨cs2, rs2⟩ := p
        rw [cleanRows_cons_pass a b c d e f g hc hrest, Option.some.injEq,
          Prod.mk.injEq] at h
        obtain ⟨rfl, rfl⟩ := h
        have ihcs := ih cs2 rs2 hrest
        have hphone : (sentinel c "0000000000").length = 10 := by
          have := (Bool.and_eq_true _ _).mp hc
          exact beq_iff_eq.mp this.2
        have hph : isNullLike (sentinel c "0000000000") = false :=
          isNullLike_false_of_length10 hphone
        have e1 : sentinel (sentinel a "UNKNOWN") "UNKNOWN" = sentinel a "UNKNOWN" :=
          sentinel_id _ (sentinel_notNull (by decide))
        have e2 : sentinel (sentinel b "UNKNOWN_CUSTOMER") "UNKNOWN_CUSTOMER" =
            sentinel b "UNKNOWN_CUSTOMER" :=
          sentinel_id _ (sentinel_notNull (by decide))
        have e3 : sentinel (sentinel c "0000000000") "0000000000" =
            sentinel c "0000000000" := sentinel_id _ hph
        have e4 : sentinel (sentinel d "noemail@unknown.com") "noemail@unknown.com" =
            sentinel d "noemail@unknown.com" :=
          sentinel_id _ (sentinel_notNull (by decide))
        have e5 : sentinel (normalizeDate (sentinel e "1900-01-01")) "1900-01-01" =
            normalizeDate (sentinel e "1900-01-01") :=
          sentinel_id _ (isNullLike_normalizeDate (sentinel_notNull (by decide)))
        have e6 : sentinel (sentinel f "INACTIVE") "INACTIVE" = sentinel f "INACTIVE" :=
          sentinel_id _ (sentinel_notNull (by decide))
        have e7 : sentinel (sentinel g "0") "0" = sentinel g "0" :=
          sentinel_id _ (sentinel_notNull (by decide))
        have hc2 : (pyIsDigit (sentinel (sentinel c "0000000000") "0000000000") &&
            (sentinel (sentinel c "0000000000") "0000000000").length == 10) = true := by
          rw [e3]; exact hc
        rw [cleanRows_cons_pass _ _ _ _ _ _ _ hc2 ihcs, e1, e2, e3, e4, e5, e6, e7,
          normalizeDate_idem]
    · cases hrest : cleanRows rest with
      | none =>
        rw [cleanRows, if_neg hc, hrest] at h
        exact absurd h (by simp)
      | some p =>
        obtain ⟨cs2, rs2⟩ := p
        rw [cleanRows_cons_fail a b c d e f g hc hrest, Option.some.injEq,
          Prod.mk.injEq] at h
        obtain ⟨rfl, rfl⟩ := h
        exact ih cs2 rs2 hrest

theorem cleanRowOut_eq_some {row out : List String} (h : cleanRowOut row = some out) :
    ∃ a b c d e f g, row = [a, b, c, d, e, f, g] ∧
      (pyIsDigit (sentinel c "0000000000") &&
        (sentinel c "0000000000").length == 10) = true ∧
      out = [sentinel a "UNKNOWN", sentinel b "UNKNOWN_CUSTOMER",
             sentinel c "0000000000", sentinel d "noemail@unknown.com",
             normalizeDate (sentinel e "1900-01-01"), sentinel f "INACTIVE",
             sentinel g "0"] := by
  rcases row with _ | ⟨a, _ | ⟨b, _ | ⟨c, _ | ⟨d, _ | ⟨e, _ | ⟨f, _ | ⟨g, _ | ⟨x, t⟩⟩⟩⟩⟩⟩⟩⟩
  case cons.cons.cons.cons.cons.cons.cons.nil =>
    simp only [cleanRowOut] at h
    by_cases hc : (pyIsDigit (sentinel c "0000000000") &&
        (sentinel c "0000000000").length == 10) = true
    · rw [if_pos hc] at h
      exact ⟨a, b, c, d, e, f, g, rfl, hc, (Option.some.inj h).symm⟩
    · rw [if_neg hc] at h
      exact absurd h (by simp)
  all_goals simp [cleanRowOut] at h

theorem cleaned_phone {data cs rs : List (List String)}
    (h : cleanRows data = some (cs, rs)) :
    ∀ row ∈ cs, ∃ ph, row.get? 2 = some ph ∧ pyIsDigit ph = true ∧
      ph.length = 10 := by
  intro row hrow
  obtain ⟨hcs, _⟩ := cleanRows_char data cs rs h
  subst hcs
  obtain ⟨r0, _, hout⟩ := List.mem_filterMap.mp hrow
  obtain ⟨a, b, c, d, e, f, g, rfl, hc, rfl⟩ := cleanRowOut_eq_some hout
  have hsplit := (Bool.and_eq_true _ _).mp hc
  exact ⟨sentinel c "0000000000", rfl, hsplit.1, beq_iff_eq.mp hsplit.2⟩

theorem clean_customer_data_inv {rows : List (List String)} {res : CleanResult}
    (h : clean_customer_data rows = some res) :
    ∃ hdr data cs rs, rows = hdr :: data ∧ cleanRows data = some (cs, rs) ∧
      res = ⟨cs, rs, !rs.isEmpty⟩ := by
  cases rows with
  | nil => simp [clean_customer_data] at h
  | cons hdr data =>
    cases hcr : cleanRows data with
    | none =>
      simp only [clean_customer_data] at h
      rw [hcr] at h
      exact absurd h (by simp)
    | some p =>
      obtain ⟨cs, rs⟩ := p
      simp only [clean_customer_data] at h
      rw [hcr] at h
      exact ⟨hdr, data, cs, rs, rfl, hcr, (Option.some.inj h).symm⟩

/-- Claim C2, counterexample: a customer row whose phone consists of ten
Arabic-Indic digit characters passes the str.isdigit length-ten
validation and is emitted into the cleaned output, yet its phone is not
made of ASCII digit characters.  So not every emitted phone consists of
ten ASCII digits. -/
theorem cleanCustomer_phone_not_ascii_counterexample :
    (clean_customer_data [outputHeader,
        ["C1", "Alice", "٠١٢٣٤٥٦٧٨٩", "a@x.com", "20240101", "ACTIVE", "500"]]).map
      (fun res => (res.cleaned.length,
        (res.cleaned.map (fun r => r.getD 2 "")).any
          (fun ph => !(ph.data.all Char.isDigit))))
    = some (1, true) := by decide

/-- Claim C2 (amended): for every input customer dataset and every row
emitted into the cleaned output by clean_customer_data, the phone field
of that row consists of exactly ten characters, each of which Python
str.isdigit classifies as a digit (ASCII or other Unicode decimal
digits). -/
theorem cleanCustomer_phone_pydigits (rows : List (List String)) (res : CleanResult)
    (h : clean_customer_data rows = some res) :
    ∀ row ∈ res.cleaned, ∃ ph, row.get? 2 = some ph ∧ ph.length = 10 ∧
      ph.data.all pyIsDigitChar = true := by
  obtain ⟨hdr, data, cs, rs, rfl, hcr, rfl⟩ := clean_customer_data_inv h
  intro row hrow
  obtain ⟨ph, hget, hdig, hlen⟩ := cleaned_phone hcr row hrow
  refine ⟨ph, hget, hlen, ?_⟩
  exact ((Bool.and_eq_true _ _).mp hdig).2

theorem cleanCustomer_phone_pydigits_witness :
    ∃ ph, ["C1", "Alice", "0000000000", "a@x.com", "2024-01-01", "ACTIVE",
      "500"].get? 2 = some ph ∧ ph.length = 10 ∧
      ph.data.all pyIsDigitChar = true :=
  cleanCustomer_phone_pydigits
    [outputHeader, ["C1", "Alice", "", "a@x.com", "20240101", "ACTIVE", "500"]]
    ⟨[["C1", "Alice", "0000000000", "a@x.com", "2024-01-01", "ACTIVE", "500"]],
      [], false⟩
    (by decide)
    ["C1", "Alice", "0000000000", "a@x.com", "2024-01-01", "ACTIVE", "500"]
    (by decide)

/-- Claim C3: the Cleanser is idempotent: re-running clean_customer_data
on the cleaned output of a first run (with the written output header)
returns that cleaned output unchanged, with an empty rejected set and no
reject file written. -/
theorem cleanCustomer_idempotent (rows : List (List String)) (res : CleanResult)
    (h : clean_customer_data rows = some res) :
    clean_customer_data (outputHeader :: res.cleaned) =
      some ⟨res.cleaned, [], false⟩ := by
  obtain ⟨hdr, data, cs, rs, rfl, hcr, rfl⟩ := clean_customer_data_inv h
  have hidem := cleanRows_idem data cs rs hcr
  simp only [clean_customer_data]
  rw [hidem]
  rfl

theorem cleanCustomer_idempotent_witness :
    clean_customer_data (outputHeader ::
        [["C1", "Alice", "0000000000", "a@x.com", "2024-01-01", "ACTIVE", "500"]]) =
      some ⟨[["C1", "Alice", "0000000000", "a@x.com", "2024-01-01", "ACTIVE",
        "500"]], [], false⟩ :=
  cleanCustomer_idempotent
    [outputHeader, ["C1", "Alice", "", "a@x.com", "20240101", "ACTIVE", "500"]]
    ⟨[["C1", "Alice", "0000000000", "a@x.com", "2024-01-01", "ACTIVE", "500"]],
      [], false⟩
    (by decide)

/-- Claim C4: on any customer input whose data rows all have exactly
seven fields, the stage succeeds and the cleaned and rejected row counts
add up to the input data row count. -/
theorem cleanCustomer_partition_count (hdr : List String)
    (data : List (List String)) (h7 : ∀ row ∈ data, row.length = 7) :
    ∃ res, clean_customer_data (hdr :: data) = some res ∧
      res.cleaned.length + res.rejected.length = data.length := by
  obtain ⟨⟨cs, rs⟩, hcr⟩ := cleanRows_total data h7
  refine ⟨⟨cs, rs, !rs.isEmpty⟩, ?_, cleanRows_count data cs rs hcr⟩
  simp only [clean_customer_data]
  rw [hcr]

theorem cleanCustomer_partition_count_witness :
    ∃ res, clean_customer_data [outputHeader,
        ["C1", "Alice", "", "a@x.com", "20240101", "ACTIVE", "500"],
        ["C2", "Bob", "12345", "b@x.com", "20240101", "ACTIVE", "300"]] =
      some res ∧ res.cleaned.length + res.rejected.length = 2 :=
  cleanCustomer_partition_count outputHeader
    [["C1", "Alice", "", "a@x.com", "20240101", "ACTIVE", "500"],
     ["C2", "Bob", "12345", "b@x.com", "20240101", "ACTIVE", "300"]]
    (by decide)

/-- Claim C10: clean_customer_data preserves input order in both
outputs: the cleaned rows are exactly the per-row transforms of the
passing input rows in input order, and the rejected rows are exactly the
failing input rows in input order (an order-preserving sublist of the
input). -/
theorem cleanCustomer_order_preserving (hdr : List String)
    (data : List (List String)) (res : CleanResult)
    (h : clean_customer_data (hdr :: data) = some res) :
    res.cleaned = data.filterMap cleanRowOut ∧
    res.rejected = data.filter (fun r => !(passes r)) ∧
    res.rejected.Sublist data := by
  obtain ⟨hdr2, data2, cs, rs, heq, hcr, rfl⟩ := clean_customer_data_inv h
  obtain ⟨rfl, rfl⟩ : hdr = hdr2 ∧ data = data2 := by
    injection heq with h1 h2; exact ⟨h1, h2⟩
  obtain ⟨hc, hr⟩ := cleanRows_char data cs rs hcr
  exact ⟨hc, hr, hr ▸ List.filter_sublist data⟩

theorem cleanCustomer_order_preserving_witness :
    (⟨[["C1", "Alice", "0000000000", "a@x.com", "2024-01-01", "ACTIVE", "500"]],
        [["C2", "Bob", "12345", "b@x.com", "20240101", "ACTIVE", "300"]],
        true⟩ : CleanResult).cleaned =
      [["C1", "Alice", "", "a@x.com", "20240101", "ACTIVE", "500"],
       ["C2", "Bob", "12345", "b@x.com", "20240101", "ACTIVE",
        "300"]].filterMap cleanRowOut ∧
    (⟨[["C1", "Alice", "0000000000", "a@x.com", "2024-01-01", "ACTIVE", "500"]],
        [["C2", "Bob", "12345", "b@x.com", "20240101", "ACTIVE", "300"]],
        true⟩ : CleanResult).rejected =
      [["C1", "Alice", "", "a@x.com", "20240101", "ACTIVE", "500"],
       ["C2", "Bob", "12345", "b@x.com", "20240101", "ACTIVE",
        "300"]].filter (fun r => !(passes r)) ∧
    (⟨[["C1", "Alice", "0000000000", "a@x.com", "2024-01-01", "ACTIVE", "500"]],
        [["C2", "Bob", "12345", "b@x.com", "20240101", "ACTIVE", "300"]],
        true⟩ : CleanResult).rejected.Sublist
      [["C1", "Alice", "", "a@x.com", "20240101", "ACTIVE", "500"],
       ["C2", "Bob", "12345", "b@x.com", "20240101", "ACTIVE", "300"]] :=
  cleanCustomer_order_preserving outputHeader
    [["C1", "Alice", "", "a@x.com", "20240101", "ACTIVE", "500"],
     ["C2", "Bob", "12345", "b@x.com", "20240101", "ACTIVE", "300"]]
    ⟨[["C1", "Alice", "0000000000", "a@x.com", "2024-01-01", "ACTIVE", "500"]],
      [["C2", "Bob", "12345", "b@x.com", "20240101", "ACTIVE", "300"]], true⟩
    (by decide)

/-- Claim C9: a row whose post-substitution phone fails validation is
appended to the rejected output in its original pre-substitution form,
is absent from the cleaned output, the remaining rows are still
processed, and the reject file is written exactly when some row was
rejected. -/
theorem cleanCustomer_reject_behavior (hdr row : List String)
    (pre post c1 r1 c2 r2 : List (List String))
    (hpre : cleanRows pre = some (c1, r1))
    (hpost : cleanRows post = some (c2, r2))
    (hlen : row.length = 7) (hfail : passes row = false) :
    ∃ res, clean_customer_data (hdr :: (pre ++ row :: post)) = some res ∧
      res.cleaned = c1 ++ c2 ∧ res.rejected = r1 ++ row :: r2 ∧
      row ∉ res.cleaned ∧ res.rejectFileWritten = true ∧
      (res.rejectFileWritten = true ↔ res.rejected ≠ []) := by
  obtain ⟨a, b, c, d, e, f, g, rfl⟩ := exists_seven_of_length hlen
  simp only [passes] at hfail
  have hcond : ¬((pyIsDigit (sentinel c "0000000000") &&
      (sentinel c "0000000000").length == 10) = true) := by
    rw [hfail]; simp
  have hmid : cleanRows ([a, b, c, d, e, f, g] :: post) =
      some (c2, [a, b, c, d, e, f, g] :: r2) :=
    cleanRows_cons_fail a b c d e f g hcond hpost
  have hall := cleanRows_append hmid c1 r1 hpre
  have hnotmem : ∀ (data0 cs0 rs0 : List (List String)),
      cleanRows data0 = some (cs0, rs0) → [a, b, c, d, e, f, g] ∉ cs0 := by
    intro data0 cs0 rs0 hcr hmem
    obtain ⟨ph, hget, hdig, hlen10⟩ := cleaned_phone hcr _ hmem
    have hph : ph = c := by
      simp only [List.get?] at hget
      exact (Option.some.inj hget).symm
    subst hph
    apply hcond
    rw [sentinel_id _ (isNullLike_false_of_length10 hlen10)]
    simp [hdig, hlen10]
  refine ⟨⟨c1 ++ c2, r1 ++ [a, b, c, d, e, f, g] :: r2,
    !((r1 ++ [a, b, c, d, e, f, g] :: r2).isEmpty)⟩, ?_, rfl, rfl, ?_, ?_, ?_⟩
  · simp only [clean_customer_data]
    rw [hall]
  · intro hmem
    rcases List.mem_append.mp hmem with hmem1 | hmem2
    · exact hnotmem pre c1 r1 hpre hmem1
    · exact hnotmem post c2 r2 hpost hmem2
  · simp
  · simp

theorem cleanCustomer_reject_behavior_witness :
    ∃ res, clean_customer_data (outputHeader ::
        [["C2", "Bob", "12345", "b@x.com", "20240101", "ACTIVE", "300"]]) =
      some res ∧
      res.cleaned = [] ∧
      res.rejected = [["C2", "Bob", "12345", "b@x.com", "20240101", "ACTIVE",
        "300"]] ∧
      ["C2", "Bob", "12345", "b@x.com", "20240101", "ACTIVE", "300"] ∉
        res.cleaned ∧
      res.rejectFileWritten = true ∧
      (res.rejectFileWritten = true ↔ res.rejected ≠ []) :=
  cleanCustomer_reject_behavior outputHeader
    ["C2", "Bob", "12345", "b@x.com", "20240101", "ACTIVE", "300"]
    [] [] [] [] [] [] rfl rfl (by decide) (by decide)

/-- Claim C8: through the whole cleaning pipeline, the cleaned row
derived from an input row that passes phone validation carries, in its
registration-date field, the post-substitution date rewritten as first
four characters, hyphen, next two, hyphen, last two whenever that date
is exactly eight characters long and all digits, and carries it
unchanged for every other shape. -/
theorem cleanCustomer_date_normalization (hdr : List String)
    (data : List (List String)) (res : CleanResult)
    (h : clean_customer_data (hdr :: data) = some res) :
    res.cleaned = data.filterMap cleanRowOut ∧
    ∀ row out reg, row ∈ data → cleanRowOut row = some out →
      row.get? 4 = some reg →
      (((sentinel reg "1900-01-01").length = 8 ∧
          (sentinel reg "1900-01-01").data.all pyIsDigitChar = true) →
        out.get? 4 = some (String.mk ((sentinel reg "1900-01-01").data.take 4 ++
          '-' :: (((sentinel reg "1900-01-01").data.drop 4).take 2 ++
            '-' :: (sentinel reg "1900-01-01").data.drop 6)))) ∧
      (¬((sentinel reg "1900-01-01").length = 8 ∧
          (sentinel reg "1900-01-01").data.all pyIsDigitChar = true) →
        out.get? 4 = some (sentinel reg "1900-01-01")) := by
  obtain ⟨hdr2, data2, cs, rs, heq, hcr, rfl⟩ := clean_customer_data_inv h
  obtain ⟨rfl, rfl⟩ : hdr = hdr2 ∧ data = data2 := by
    injection heq with h1 h2; exact ⟨h1, h2⟩
  refine ⟨(cleanRows_char _ cs rs hcr).1, ?_⟩
  intro row out reg _ hout hreg
  obtain ⟨a, b, c, d, e, f, g, rfl, _, rfl⟩ := cleanRowOut_eq_some hout
  have hrege : reg = e := by
    simp only [List.get?] at hreg
    exact (Option.some.inj hreg).symm
  subst hrege
  have hget4 : ([sentinel a "UNKNOWN", sentinel b "UNKNOWN_CUSTOMER",
      sentinel c "0000000000", sentinel d "noemail@unknown.com",
      normalizeDate (sentinel reg "1900-01-01"), sentinel f "INACTIVE",
      sentinel g "0"] : List String).get? 4 =
      some (normalizeDate (sentinel reg "1900-01-01")) := rfl
  constructor
  · intro hcl
    obtain ⟨h8, hall⟩ := hcl
    have hne : (sentinel reg "1900-01-01").data.isEmpty = false := by
      have hd : (sentinel reg "1900-01-01").data.length = 8 := h8
      cases he : (sentinel reg "1900-01-01").data with
      | nil => rw [he] at hd; exact absurd hd (by decide)
      | cons x xs => simp [List.isEmpty]
    have hcode : ((sentinel reg "1900-01-01").length == 8 &&
        pyIsDigit (sentinel reg "1900-01-01")) = true := by
      simp [pyIsDigit, hne, hall, h8]
    rw [hget4, normalizeDate, if_pos hcode]
    congr 1
    apply String.ext
    simp [String.data_append]
  · intro hncl
    have hncode : ¬(((sentinel reg "1900-01-01").length == 8 &&
        pyIsDigit (sentinel reg "1900-01-01")) = true) := by
      intro hcode
      obtain ⟨hb1, hb2⟩ := (Bool.and_eq_true _ _).mp hcode
      exact hncl ⟨beq_iff_eq.mp hb1, ((Bool.and_eq_true _ _).mp hb2).2⟩
    rw [hget4, normalizeDate, if_neg hncode]

theorem cleanCustomer_date_normalization_witness :
    (["C1", "Alice", "0000000000", "a@x.com", "2024-01-01", "ACTIVE", "500"] :
        List String).get? 4 =
      some (String.mk ((sentinel "20240101" "1900-01-01").data.take 4 ++
        '-' :: (((sentinel "20240101" "1900-01-01").data.drop 4).take 2 ++
          '-' :: (sentinel "20240101" "1900-01-01").data.drop 6))) :=
  ((cleanCustomer_date_normalization outputHeader
      [["C1", "Alice", "", "a@x.com", "20240101", "ACTIVE", "500"]]
      ⟨[["C1", "Alice", "0000000000", "a@x.com", "2024-01-01", "ACTIVE", "500"]],
        [], false⟩
      (by decide)).2
    ["C1", "Alice", "", "a@x.com", "20240101", "ACTIVE", "500"]
    ["C1", "Alice", "0000000000", "a@x.com", "2024-01-01", "ACTIVE", "500"]
    "20240101" (by decide) (by decide) rfl).1 (by decide)

/-- Claim C5: deduplicate_usage_data returns an order-preserving
subsequence of its input with no two identical elements, keeping each
distinct line exactly once at its first-seen position (lines compared by
exact equality, newlines included), and reports duplicates_removed as
input count minus output count. -/
theorem dedupUsage_spec (lines : List String) :
    (deduplicate_usage_data lines).deduped.Sublist lines ∧
    (deduplicate_usage_data lines).deduped.Nodup ∧
    (∀ x, x ∈ (deduplicate_usage_data lines).deduped ↔ x ∈ lines) ∧
    (deduplicate_usage_data lines).deduped = dedupSpec lines ∧
    (deduplicate_usage_data lines).outputCount ≤
      (deduplicate_usage_data lines).inputCount ∧
    (deduplicate_usage_data lines).duplicatesRemoved =
      (deduplicate_usage_data lines).inputCount -
        (deduplicate_usage_data lines).outputCount ∧
    (deduplicate_usage_data lines).outputCount +
      (deduplicate_usage_data lines).duplicatesRemoved =
      (deduplicate_usage_data lines).inputCount := by
  have hded : (deduplicate_usage_data lines).deduped = pyDedupAux [] lines := by
    simp [deduplicate_usage_data, pyDedupLoop_eq_append]
  have hsub : (pyDedupAux ([] : List String) lines).Sublist lines :=
    pyDedupAux_sublist lines []
  have hlen : (pyDedupAux ([] : List String) lines).length ≤ lines.length :=
    hsub.length_le
  refine ⟨hded ▸ hsub, hded ▸ pyDedupAux_nodup lines [], ?_, ?_, ?_, rfl, ?_⟩
  · intro x
    rw [hded, mem_pyDedupAux]
    simp
  · rw [hded, pyDedupAux_eq_dedupSpec]
    congr 1
    exact List.filter_eq_self.mpr (fun a _ => by simp)
  · show (pyDedupLoop [] [] lines).length ≤ lines.length
    rw [pyDedupLoop_eq_append, List.nil_append]
    exact hlen
  · show (pyDedupLoop [] [] lines).length +
      (lines.length - (pyDedupLoop [] [] lines).length) = lines.length
    rw [pyDedupLoop_eq_append, List.nil_append]
    omega

/-! ### Lemmas about the Billing Aggregator -/

theorem lexLt_irrefl : ∀ l : List Char, lexLt l l = false := by
  intro l
  induction l with
  | nil => rfl
  | cons x xs ih => simp [lexLt, ih]

theorem lexLt_trans : ∀ (a b c : List Char), lexLt a b = true →
    lexLt b c = true → lexLt a c = true := by
  intro a
  induction a with
  | nil =>
    intro b c hab hbc
    cases b with
    | nil => simp [lexLt] at hab
    | cons y ys =>
      cases c with
      | nil => simp [lexLt] at hbc
      | cons z zs => simp [lexLt]
  | cons x xs ih =>
    intro b c hab hbc
    cases b with
    | nil => simp [lexLt] at hab
    | cons y ys =>
      cases c with
      | nil => simp [lexLt] at hbc
      | cons z zs =>
        simp only [lexLt] at hab hbc ⊢
        by_cases hxy : x.toNat < y.toNat
        · by_cases hyz : y.toNat < z.toNat
          · rw [if_pos (show x.toNat < z.toNat by omega)]
          · by_cases hzy : z.toNat < y.toNat
            · rw [if_neg hyz, if_pos hzy] at hbc
              exact absurd hbc (by simp)
            · rw [if_pos (show x.toNat < z.toNat by omega)]
        · by_cases hyx : y.toNat < x.toNat
          · rw [if_neg hxy, if_pos hyx] at hab
            exact absurd hab (by simp)
          · rw [if_neg hxy, if_neg hyx] at hab
            by_cases hyz : y.toNat < z.toNat
            · rw [if_pos (show x.toNat < z.toNat by omega)]
            · by_cases hzy : z.toNat < y.toNat
              · rw [if_neg hyz, if_pos hzy] at hbc
                exact absurd hbc (by simp)
              · rw [if_neg hyz, if_neg hzy] at hbc
                rw [if_neg (show ¬x.toNat < z.toNat by omega),
                  if_neg (show ¬z.toNat < x.toNat by omega)]
                exact ih ys zs hab hbc

theorem pyStrLt_irrefl (s : String) : pyStrLt s s = false :=
  lexLt_irrefl s.data

theorem pyStrLt_trans {s t u : String} (h1 : pyStrLt s t = true)
    (h2 : pyStrLt t u = true) : pyStrLt s u = true :=
  lexLt_trans s.data t.data u.data h1 h2

theorem goodStats_init (amt : ℚ) (d : String) :
    GoodStats (statUpd none amt d) [(amt, d)] := by
  refine ⟨by simp [statUpd], by simp [statUpd], ?_, by simp [statUpd], ?_⟩
  · intro a ha
    simp only [List.map_cons, List.map_nil, List.mem_singleton] at ha
    subst ha
    exact ⟨le_refl _, le_refl _⟩
  · intro d2 hd2
    simp only [List.map_cons, List.map_nil, List.mem_singleton] at hd2
    subst hd2
    exact pyStrLt_irrefl d2

theorem goodStats_step {s : BillStats} {ps : List (ℚ × String)}
    (hg : GoodStats s ps) (amt : ℚ) (d : String) :
    GoodStats (statUpd (some s) amt d) (ps ++ [(amt, d)]) := by
  obtain ⟨h1, h2, h3, h4, h5⟩ := hg
  refine ⟨?_, ?_, ?_, ?_, ?_⟩
  · simp [statUpd, h1]
  · simp [statUpd, h2]
  · intro a ha
    simp only [List.map_append, List.map_cons, List.map_nil, List.mem_append,
      List.mem_singleton] at ha
    rcases ha with ha | rfl
    · obtain ⟨hmin, hmax⟩ := h3 a ha
      constructor
      · show (if amt < s.amtMin then amt else s.amtMin) ≤ a
        split_ifs with hlt
        · exact le_trans (le_of_lt hlt) hmin
        · exact hmin
      · show a ≤ (if s.amtMax < amt then amt else s.amtMax)
        split_ifs with hlt
        · exact le_trans hmax (le_of_lt hlt)
        · exact hmax
    · constructor
      · show (if a < s.amtMin then a else s.amtMin) ≤ a
        split_ifs with hlt
        · exact le_refl a
        · exact le_of_not_lt hlt
      · show a ≤ (if s.amtMax < a then a else s.amtMax)
        split_ifs with hlt
        · exact le_refl a
        · exact le_of_not_lt hlt
  · simp only [statUpd, List.map_append, List.map_cons, List.map_nil,
      List.mem_append, List.mem_singleton]
    by_cases hlt : pyStrLt s.lastDate d = true
    · rw [if_pos hlt]
      exact Or.inr rfl
    · rw [if_neg hlt]
      exact Or.inl h4
  · intro d2 hd2
    simp only [List.map_append, List.map_cons, List.map_nil, List.mem_append,
      List.mem_singleton] at hd2
    show pyStrLt (if pyStrLt s.lastDate d then d else s.lastDate) d2 = false
    by_cases hlt : pyStrLt s.lastDate d = true
    · rw [if_pos hlt]
      rcases hd2 with hd2 | rfl
      · by_cases hc : pyStrLt d d2 = true
        · exact absurd (pyStrLt_trans hlt hc) (by rw [h5 d2 hd2]; simp)
        · exact Bool.eq_false_iff.mpr hc
      · exact pyStrLt_irrefl d2
    · rw [if_neg hlt]
      rcases hd2 with hd2 | rfl
      · exact h5 d2 hd2
      · exact Bool.eq_false_iff.mpr hlt

theorem pairFold_good : ∀ (ps : List (ℚ × String)) (s : BillStats)
    (ps0 : List (ℚ × String)), GoodStats s ps0 →
    ∃ s2, ps.foldl (fun o p => some (statUpd o p.1 p.2)) (some s) = some s2 ∧
      GoodStats s2 (ps0 ++ ps) := by
  intro ps
  induction ps with
  | nil => intro s ps0 hg; exact ⟨s, rfl, by simpa using hg⟩
  | cons p pt ih =>
    intro s ps0 hg
    obtain ⟨amt, d⟩ := p
    obtain ⟨s2, hfold, hg2⟩ := ih (statUpd (some s) amt d) (ps0 ++ [(amt, d)])
      (goodStats_step hg amt d)
    refine ⟨s2, by simpa using hfold, ?_⟩
    rw [show ps0 ++ (amt, d) :: pt = (ps0 ++ [(amt, d)]) ++ pt by simp]
    exact hg2

theorem pairFold_good_of_ne_nil {ps : List (ℚ × String)} (h : ps ≠ []) :
    ∃ s2, ps.foldl (fun o p => some (statUpd o p.1 p.2)) none = some s2 ∧
      GoodStats s2 ps := by
  cases ps with
  | nil => exact absurd rfl h
  | cons p pt =>
    obtain ⟨amt, d⟩ := p
    obtain ⟨s2, hf, hg⟩ := pairFold_good pt (statUpd none amt d) [(amt, d)]
      (goodStats_init amt d)
    exact ⟨s2, by simpa using hf, by simpa using hg⟩

theorem findStats_updateAssoc (acc : List (String × BillStats)) (cid : String)
    (amt : ℚ) (d : String) (k : String) :
    findStats k (updateAssoc acc cid amt d) =
      if k = cid then some (statUpd (findStats cid acc) amt d)
      else findStats k acc := by
  induction acc with
  | nil =>
    by_cases hk : k = cid
    · subst hk; simp [updateAssoc, findStats]
    · have hck : ¬(cid = k) := fun h => hk h.symm
      simp [updateAssoc, findStats, hk, hck]
  | cons p rest ih =>
    obtain ⟨k2, s⟩ := p
    by_cases h2 : k2 = cid
    · subst h2
      by_cases hk : k2 = k
      · subst hk
        simp [updateAssoc, findStats]
      · have hk2 : ¬(k = k2) := fun h => hk h.symm
        simp [updateAssoc, findStats, hk, hk2]
    · by_cases hk : k2 = k
      · subst hk
        simp [updateAssoc, findStats, h2]
      · simp [updateAssoc, findStats, h2, hk, ih]

theorem billStep_eq_some {acc accm : List (String × BillStats)}
    {row : List String} (h : billStep acc row = some accm) :
    ∃ c a0 d0 t amt, row = c :: a0 :: d0 :: t ∧ parseAmount a0 = some amt ∧
      accm = updateAssoc acc c amt d0 := by
  cases row with
  | nil => simp [billStep] at h
  | cons c r1 =>
    cases r1 with
    | nil => simp [billStep] at h
    | cons a0 r2 =>
      cases r2 with
      | nil => simp [billStep] at h
      | cons d0 t =>
        cases hpa : parseAmount a0 with
        | none =>
          simp only [billStep] at h
          rw [hpa] at h
          exact absurd h (by simp)
        | some amt =>
          simp only [billStep] at h
          rw [hpa] at h
          exact ⟨c, a0, d0, t, amt, rfl, hpa, (Option.some.inj h).symm⟩

theorem findStats_billFold : ∀ (rows : List (List String))
    (acc acc2 : List (String × BillStats)), billFold acc rows = some acc2 →
    ∀ k, findStats k acc2 =
      (pairsOf k rows).foldl (fun o p => some (statUpd o p.1 p.2))
        (findStats k acc) := by
  intro rows
  induction rows with
  | nil =>
    intro acc acc2 h k
    simp only [billFold, Option.some.injEq] at h
    subst h
    simp [pairsOf]
  | cons row rest ih =>
    intro acc acc2 h k
    cases hstep : billStep acc row with
    | none => rw [billFold, hstep] at h; exact absurd h (by simp)
    | some accm =>
      rw [billFold, hstep] at h
      obtain ⟨c, a0, d0, t, amt, rfl, hpa, rfl⟩ := billStep_eq_some hstep
      have hrec := ih _ acc2 h k
      by_cases hck : c = k
      · subst hck
        have hpair : pairsOf c ((c :: a0 :: d0 :: t) :: rest) =
            (amt, d0) :: pairsOf c rest := by
          simp [pairsOf, List.filterMap_cons, hpa]
        rw [hpair, List.foldl_cons, hrec, findStats_updateAssoc]
        simp
      · have hpair : pairsOf k ((c :: a0 :: d0 :: t) :: rest) =
            pairsOf k rest := by
          simp [pairsOf, List.filterMap_cons, hck]
        rw [hpair, hrec, findStats_updateAssoc, if_neg (fun h => hck h.symm)]

theorem exists_three_of_le_length {r : List String} (h : 3 ≤ r.length) :
    ∃ c a d t, r = c :: a :: d :: t := by
  rcases r with _ | ⟨c, _ | ⟨a, _ | ⟨d, t⟩⟩⟩
  all_goals simp only [List.length_cons, List.length_nil] at h
  all_goals first
    | omega
    | exact ⟨c, a, d, t, rfl⟩

theorem billFold_total : ∀ (rows : List (List String))
    (acc : List (String × BillStats)),
    (∀ r ∈ rows, 3 ≤ r.length ∧ (parseAmount (r.getD 1 "")).isSome = true) →
    ∃ acc2, billFold acc rows = some acc2 := by
  intro rows
  induction rows with
  | nil => intro acc _; exact ⟨acc, rfl⟩
  | cons row rest ih =>
    intro acc h
    obtain ⟨hlen, hsome⟩ := h row (List.mem_cons_self _ _)
    obtain ⟨c, a0, d0, t, rfl⟩ := exists_three_of_le_length hlen
    obtain ⟨amt, hamt⟩ := Option.isSome_iff_exists.mp hsome
    have hamt2 : parseAmount a0 = some amt := hamt
    have hstep : billStep acc (c :: a0 :: d0 :: t) =
        some (updateAssoc acc c amt d0) := by
      simp only [billStep]
      rw [hamt2]
    obtain ⟨acc2, hrest⟩ := ih (updateAssoc acc c amt d0)
      (fun r hr => h r (List.mem_cons_of_mem _ hr))
    refine ⟨acc2, ?_⟩
    rw [billFold, hstep]
    exact hrest

theorem find_emitSummaries (cid : String) : ∀ acc : List (String × BillStats),
    (emitSummaries acc).find? (fun t => t.customer_id == cid) =
      (findStats cid acc).map (mkSummary cid) := by
  intro acc
  induction acc with
  | nil => simp [emitSummaries, findStats]
  | cons p rest ih =>
    obtain ⟨k, s⟩ := p
    by_cases hk : k = cid
    · subst hk
      simp [emitSummaries, findStats, mkSummary, List.find?]
    · simp only [emitSummaries, List.map_cons, List.find?, mkSummary]
      rw [show ((k == cid) : Bool) = false by simp [hk]]
      simpa [emitSummaries, findStats, hk] using ih

theorem updateAssoc_keys (acc : List (String × BillStats)) (cid : String)
    (amt : ℚ) (d : String) :
    (updateAssoc acc cid amt d).map Prod.fst =
      if cid ∈ acc.map Prod.fst then acc.map Prod.fst
      else acc.map Prod.fst ++ [cid] := by
  induction acc with
  | nil => simp [updateAssoc]
  | cons p rest ih =>
    obtain ⟨k, s⟩ := p
    by_cases h : k = cid
    · subst h
      simp [updateAssoc]
    · have hne : ¬(cid = k) := fun e => h e.symm
      simp only [updateAssoc, if_neg h, List.map_cons, List.mem_cons]
      rw [ih]
      by_cases hm : cid ∈ rest.map Prod.fst
      · rw [if_pos hm, if_pos (Or.inr hm)]
      · rw [if_neg hm, if_neg (by rintro (h1 | h2); exact hne h1; exact hm h2)]
        simp

theorem billFold_keys : ∀ (rows : List (List String))
    (acc acc2 : List (String × BillStats)), billFold acc rows = some acc2 →
    acc2.map Prod.fst = acc.map Prod.fst ++
      pyDedupAux (acc.map Prod.fst) (rows.map (fun r => r.headD "")) := by
  intro rows
  induction rows with
  | nil =>
    intro acc acc2 h
    simp only [billFold, Option.some.injEq] at h
    subst h
    simp [pyDedupAux]
  | cons row rest ih =>
    intro acc acc2 h
    cases hstep : billStep acc row with
    | none => rw [billFold, hstep] at h; exact absurd h (by simp)
    | some accm =>
      rw [billFold, hstep] at h
      obtain ⟨c, a0, d0, t, amt, rfl, hpa, rfl⟩ := billStep_eq_some hstep
      have hrec := ih _ acc2 h
      rw [hrec, updateAssoc_keys]
      simp only [List.map_cons, List.headD_cons, pyDedupAux]
      by_cases hm : c ∈ acc.map Prod.fst
      · rw [if_pos hm, if_pos hm]
      · rw [if_neg hm, if_neg hm]
        rw [pyDedupAux_congr_seen (rest.map (fun r => r.headD ""))
          (acc.map Prod.fst ++ [c]) (c :: acc.map Prod.fst) (by intro y; simp [or_comm])]
        simp

theorem updateAssoc_countSum (acc : List (String × BillStats)) (cid : String)
    (amt : ℚ) (d : String) :
    ((updateAssoc acc cid amt d).map (fun p => p.2.count)).sum =
      ((acc.map (fun p => p.2.count)).sum) + 1 := by
  induction acc with
  | nil => simp [updateAssoc, statUpd]
  | cons p rest ih =>
    obtain ⟨k, s⟩ := p
    by_cases h : k = cid
    · subst h
      simp [updateAssoc, statUpd]
      omega
    · simp only [updateAssoc, if_neg h, List.map_cons, List.sum_cons, ih]
      omega

theorem billFold_countSum : ∀ (rows : List (List String))
    (acc acc2 : List (String × BillStats)), billFold acc rows = some acc2 →
    (acc2.map (fun p => p.2.count)).sum =
      (acc.map (fun p => p.2.count)).sum + rows.length := by
  intro rows
  induction rows with
  | nil =>
    intro acc acc2 h
    simp only [billFold, Option.some.injEq] at h
    subst h
    simp
  | cons row rest ih =>
    intro acc acc2 h
    cases hstep : billStep acc row with
    | none => rw [billFold, hstep] at h; exact absurd h (by simp)
    | some accm =>
      rw [billFold, hstep] at h
      obtain ⟨c, a0, d0, t, amt, rfl, hpa, rfl⟩ := billStep_eq_some hstep
      have hrec := ih _ acc2 h
      rw [hrec, updateAssoc_countSum]
      simp only [List.length_cons]
      omega

/-- Claim C6: for billing inputs whose data rows have at least three
pipe-delimited fields and parseable (or empty/NULL) amounts, the summary
emitted for each customer appearing in the input has the customer's
amount sum as total, the row count as record count, total over count as
average, min and max bounding every amount, and a lexicographically
maximal date string as last billing date. -/
theorem aggregateBilling_per_customer (hdr : String) (dataLines : List String)
    (hshape : ∀ line ∈ dataLines, 3 ≤ (billParseLine line).length ∧
      (parseAmount ((billParseLine line).getD 1 "")).isSome = true)
    (cid : String)
    (happ : ∃ line ∈ dataLines, (billParseLine line).headD "" = cid) :
    ∃ summaries s, aggregate_billing_data (hdr :: dataLines) = some summaries ∧
      summaries.find? (fun t => t.customer_id == cid) = some s ∧
      s.total_amount = (amountsOf cid (dataLines.map billParseLine)).sum ∧
      s.record_count = (amountsOf cid (dataLines.map billParseLine)).length ∧
      s.avg_amount = s.total_amount / (s.record_count : ℚ) ∧
      (∀ a ∈ amountsOf cid (dataLines.map billParseLine),
        s.min_amount ≤ a ∧ a ≤ s.max_amount) ∧
      s.last_billing_date ∈ datesOf cid (dataLines.map billParseLine) ∧
      (∀ d ∈ datesOf cid (dataLines.map billParseLine),
        pyStrLt s.last_billing_date d = false) := by
  have hshape2 : ∀ r ∈ dataLines.map billParseLine, 3 ≤ r.length ∧
      (parseAmount (r.getD 1 "")).isSome = true := by
    intro r hr
    obtain ⟨line, hline, rfl⟩ := List.mem_map.mp hr
    exact hshape line hline
  obtain ⟨acc, hfold⟩ := billFold_total (dataLines.map billParseLine) [] hshape2
  have hagg : aggregate_billing_data (hdr :: dataLines) =
      some (emitSummaries acc) := by
    simp only [aggregate_billing_data]
    rw [hfold]
    rfl
  have hpair : pairsOf cid (dataLines.map billParseLine) ≠ [] := by
    obtain ⟨line, hline, hhead⟩ := happ
    obtain ⟨hlen, hsome⟩ := hshape line hline
    obtain ⟨c, a0, d0, t, hsh⟩ := exists_three_of_le_length hlen
    rw [hsh] at hsome hhead
    obtain ⟨amt, hamt⟩ := Option.isSome_iff_exists.mp hsome
    have hc : c = cid := by simpa using hhead
    have hamt2 : parseAmount a0 = some amt := hamt
    apply List.ne_nil_of_mem (a := (amt, d0))
    simp only [pairsOf, List.mem_filterMap]
    refine ⟨billParseLine line, List.mem_map_of_mem _ hline, ?_⟩
    rw [hsh]
    simp [hc, hamt2]
  obtain ⟨s2, hpf, hgood⟩ := pairFold_good_of_ne_nil hpair
  have hfs : findStats cid acc = some s2 := by
    have h := findStats_billFold (dataLines.map billParseLine) [] acc hfold cid
    rw [h]
    exact hpf
  obtain ⟨hg1, hg2, hg3, hg4, hg5⟩ := hgood
  refine ⟨emitSummaries acc, mkSummary cid s2, hagg, ?_, ?_, ?_, ?_, ?_, ?_, ?_⟩
  · rw [find_emitSummaries, hfs]
    rfl
  · show s2.total = (amountsOf cid (dataLines.map billParseLine)).sum
    rw [hg1]
    rfl
  · show s2.count = (amountsOf cid (dataLines.map billParseLine)).length
    rw [hg2]
    simp [amountsOf]
  · show (if s2.count > 0 then s2.total / (s2.count : ℚ) else 0) =
      (mkSummary cid s2).total_amount / ((mkSummary cid s2).record_count : ℚ)
    have hpos : 0 < s2.count := by
      rw [hg2]
      exact List.length_pos.mpr hpair
    rw [if_pos hpos]
    rfl
  · intro a ha
    exact hg3 a ha
  · exact hg4
  · intro d hd
    exact hg5 d hd

theorem aggregateBilling_per_customer_witness :
    ∃ summaries s,
      aggregate_billing_data ["customer_id|amount|billing_date\n",
        "C1|10.0|2024-01-05\n", "C1|20.0|2024-01-10\n"] = some summaries ∧
      summaries.find? (fun t => t.customer_id == "C1") = some s ∧
      s.total_amount = (amountsOf "C1" (["C1|10.0|2024-01-05\n",
        "C1|20.0|2024-01-10\n"].map billParseLine)).sum ∧
      s.record_count = (amountsOf "C1" (["C1|10.0|2024-01-05\n",
        "C1|20.0|2024-01-10\n"].map billParseLine)).length ∧
      s.avg_amount = s.total_amount / (s.record_count : ℚ) ∧
      (∀ a ∈ amountsOf "C1" (["C1|10.0|2024-01-05\n",
        "C1|20.0|2024-01-10\n"].map billParseLine),
        s.min_amount ≤ a ∧ a ≤ s.max_amount) ∧
      s.last_billing_date ∈ datesOf "C1" (["C1|10.0|2024-01-05\n",
        "C1|20.0|2024-01-10\n"].map billParseLine) ∧
      (∀ d ∈ datesOf "C1" (["C1|10.0|2024-01-05\n",
        "C1|20.0|2024-01-10\n"].map billParseLine),
        pyStrLt s.last_billing_date d = false) :=
  aggregateBilling_per_customer "customer_id|amount|billing_date\n"
    ["C1|10.0|2024-01-05\n", "C1|20.0|2024-01-10\n"]
    (by decide) "C1" (by decide)

/-- Claim C7: for valid billing inputs, aggregate_billing_data emits
exactly one summary line per distinct customer id, in order of first
appearance, and the record counts of the emitted summaries sum to the
number of billing data rows. -/
theorem aggregateBilling_one_per_customer (hdr : String) (dataLines : List String)
    (hshape : ∀ line ∈ dataLines, 3 ≤ (billParseLine line).length ∧
      (parseAmount ((billParseLine line).getD 1 "")).isSome = true) :
    ∃ summaries, aggregate_billing_data (hdr :: dataLines) = some summaries ∧
      summaries.map (fun t => t.customer_id) =
        pyDedup (dataLines.map (fun l => (billParseLine l).headD "")) ∧
      (summaries.map (fun t => t.customer_id)).Nodup ∧
      (∀ c, c ∈ summaries.map (fun t => t.customer_id) ↔
        c ∈ dataLines.map (fun l => (billParseLine l).headD "")) ∧
      (summaries.map (fun t => t.record_count)).sum = dataLines.length := by
  have hshape2 : ∀ r ∈ dataLines.map billParseLine, 3 ≤ r.length ∧
      (parseAmount (r.getD 1 "")).isSome = true := by
    intro r hr
    obtain ⟨line, hline, rfl⟩ := List.mem_map.mp hr
    exact hshape line hline
  obtain ⟨acc, hfold⟩ := billFold_total (dataLines.map billParseLine) [] hshape2
  have hagg : aggregate_billing_data (hdr :: dataLines) =
      some (emitSummaries acc) := by
    simp only [aggregate_billing_data]
    rw [hfold]
    rfl
  have hkeys := billFold_keys (dataLines.map billParseLine) [] acc hfold
  have hmapmap : (dataLines.map billParseLine).map (fun r => r.headD "") =
      dataLines.map (fun l => (billParseLine l).headD "") := by
    rw [List.map_map]
    rfl
  have hemit : (emitSummaries acc).map (fun t => t.customer_id) =
      acc.map Prod.fst := by
    simp [emitSummaries, mkSummary, List.map_map]
  have hcount : (emitSummaries acc).map (fun t => t.record_count) =
      acc.map (fun p => p.2.count) := by
    simp [emitSummaries, mkSummary, List.map_map]
  refine ⟨emitSummaries acc, hagg, ?_, ?_, ?_, ?_⟩
  · rw [hemit, hkeys, List.map_nil, List.nil_append, hmapmap]
    rfl
  · rw [hemit, hkeys]
    simpa using pyDedupAux_nodup _ _
  · intro c
    rw [hemit, hkeys, List.map_nil, List.nil_append, hmapmap,
      mem_pyDedupAux]
    simp
  · rw [hcount, billFold_countSum _ [] acc hfold]
    simp

theorem aggregateBilling_one_per_customer_witness :
    ∃ summaries,
      aggregate_billing_data ["customer_id|amount|billing_date\n",
        "C1|10.0|2024-01-05\n", "C2|5.5|2024-02-01\n",
        "C1|20.0|2024-01-10\n"] = some summaries ∧
      summaries.map (fun t => t.customer_id) =
        pyDedup (["C1|10.0|2024-01-05\n", "C2|5.5|2024-02-01\n",
          "C1|20.0|2024-01-10\n"].map (fun l => (billParseLine l).headD "")) ∧
      (summaries.map (fun t => t.customer_id)).Nodup ∧
      (∀ c, c ∈ summaries.map (fun t => t.customer_id) ↔
        c ∈ ["C1|10.0|2024-01-05\n", "C2|5.5|2024-02-01\n",
          "C1|20.0|2024-01-10\n"].map (fun l => (billParseLine l).headD "")) ∧
      (summaries.map (fun t => t.record_count)).sum = 3 :=
  aggregateBilling_one_per_customer "customer_id|amount|billing_date\n"
    ["C1|10.0|2024-01-05\n", "C2|5.5|2024-02-01\n", "C1|20.0|2024-01-10\n"]
    (by decide)

/-- Claim C1 fails on the code: the three usage-statistics writes sit
inside the per-line loop of create_final_report, so the usage section
appears once per usage data line instead of exactly once.  On a
deduplicated usage file with only a header line the report contains the
customer-statistics, billing-statistics and processing-summary sections
exactly once but the usage-statistics section zero times, and with two
data lines the usage-statistics section appears twice. -/
theorem createFinalReport_usage_section_count_bug :
    (create_final_report "T1" "T2"
        [["customer_id", "name", "phone", "email", "registration_date",
          "status", "credit_limit"]]
        ["usage_header\n"] ["bill_header\n"]).map
      (fun ch => (ch.countP (fun c => c == "CUSTOMER DATA STATISTICS:\n"),
        ch.countP (fun c => c == "USAGE DATA STATISTICS:\n"),
        ch.countP (fun c => c == "BILLING DATA STATISTICS:\n"),
        ch.countP (fun c => c == "PROCESSING SUMMARY:\n"))) =
      some (1, 0, 1, 1) ∧
    (create_final_report "T1" "T2"
        [["customer_id", "name", "phone", "email", "registration_date",
          "status", "credit_limit"]]
        ["usage_header\n", "u1|p1|5\n", "u2|p2|7.5\n"] ["bill_header\n"]).map
      (fun ch => ch.countP (fun c => c == "USAGE DATA STATISTICS:\n")) =
      some 2 := by
  exact ⟨by decide, by decide⟩
